import Mathlib

/-!
Shallow embedding of the Ostle game engine (src/ostle/core/board.py), the
asynchronous match driver (src/ostle/app/engine.py) and several search agents
(src/ostle/agents/kyawan.py, random.py, inoue_agent/agent.py), together with
theorems checking the natural-language specification against them.

Boards are Python lists of `Cell`; Python list indexing (including negative
indices and the IndexError exception) is modelled by `pyIdx`, `py_get`,
`py_set`, where `none` stands for a raised exception.  `applied_move`'s
chain-push loop is given an ample fuel budget (its walk leaves the 5x5 grid
after at most a handful of steps); running out of fuel yields `none`.
-/

/-- Cell enumeration from board.py (`class Cell(IntEnum)`). -/
inductive Cell where
  | EMPTY
  | Player1
  | Player2
  | HOLE
deriving DecidableEq, Repr

/-- `Cell.opponent`: defined for the two players, raises `ValueError`
(modelled by `none`) on `EMPTY` and `HOLE`. -/
def Cell.opponent : Cell → Option Cell
  | Cell.Player1 => some Cell.Player2
  | Cell.Player2 => some Cell.Player1
  | _ => none

/-- Move named tuple from board.py: origin `(x, y)` and delta `(dx, dy)`. -/
structure Move where
  x : Int
  y : Int
  dx : Int
  dy : Int
deriving DecidableEq, Repr

/-- `BOARD_WIDTH = 5`. -/
def BOARD_WIDTH : Int := 5

/-- `BOARD_SIZE = BOARD_WIDTH * BOARD_WIDTH`. -/
def BOARD_SIZE : Nat := 25

/-- `BLACK_ROW = 0`. -/
def BLACK_ROW : Int := 0

/-- `WHITE_ROW = BOARD_WIDTH - 1`. -/
def WHITE_ROW : Int := BOARD_WIDTH - 1

/-- `HOLE_POSITION = (2, 2)`. -/
def HOLE_POSITION : Int × Int := (2, 2)

/-- `xy_to_index(x, y) = y * BOARD_WIDTH + x`. -/
def xy_to_index (x y : Int) : Int := y * BOARD_WIDTH + x

/-- `is_in_board(x, y)`: `0 <= x < BOARD_WIDTH and 0 <= y < BOARD_WIDTH`. -/
def is_in_board (x y : Int) : Bool :=
  decide (0 ≤ x ∧ x < BOARD_WIDTH ∧ 0 ≤ y ∧ y < BOARD_WIDTH)

/-- Python list-index resolution for a list of length `len`: a non-negative
index must be `< len`; a negative index counts from the end.  `none` models
an `IndexError`. -/
def pyIdx (len : Nat) (i : Int) : Option Nat :=
  if 0 ≤ i then (if i < (len : Int) then some i.toNat else none)
  else (if 0 ≤ i + (len : Int) then some (i + (len : Int)).toNat else none)

/-- Python `board[i]` (read). -/
def py_get (b : List Cell) (i : Int) : Option Cell :=
  (pyIdx b.length i).map (fun j => b.getD j Cell.EMPTY)

/-- Python `board[i] = c` (write). -/
def py_set (b : List Cell) (i : Int) (c : Cell) : Option (List Cell) :=
  (pyIdx b.length i).map (fun j => b.set j c)

/-- Reading a board cell at in-grid coordinates (used by `get_legal_moves`,
whose every access is guarded by the `range(5)` loops, hence in range for the
25-cell boards of the data model). -/
def boardAt (b : List Cell) (x y : Int) : Cell :=
  b.getD (xy_to_index x y).toNat Cell.EMPTY

/-- `create_initial_board()`: row 0 all Player1, row 4 all Player2, the hole
at `HOLE_POSITION`, everything else empty. -/
def create_initial_board : List Cell :=
  let board := List.replicate BOARD_SIZE Cell.EMPTY
  let board := (List.range 5).foldl
    (fun b x => b.set (xy_to_index (Int.ofNat x) BLACK_ROW).toNat Cell.Player1) board
  let board := (List.range 5).foldl
    (fun b x => b.set (xy_to_index (Int.ofNat x) WHITE_ROW).toNat Cell.Player2) board
  board.set (xy_to_index HOLE_POSITION.1 HOLE_POSITION.2).toNat Cell.HOLE

/-- `copy_board(board) = board[:]`: on immutable values the copy is the value
itself. -/
def copy_board (board : List Cell) : List Cell := board

/-- The direction list `[(-1, 0), (1, 0), (0, -1), (0, 1)]` used by
`get_legal_moves`. -/
def move_directions : List (Int × Int) := [(-1, 0), (1, 0), (0, -1), (0, 1)]

/-- The moves `get_legal_moves` emits for one grid cell `(x, y)`:
a piece of `player` may move to any in-board neighbour; the hole may move
only to an in-board neighbour that is currently empty; other cells emit
nothing.  The `if`/`elif` order matches the source. -/
def cell_moves (board : List Cell) (player : Cell) (x y : Int) : List Move :=
  let cell := boardAt board x y
  if cell = player then
    move_directions.filterMap (fun d =>
      if is_in_board (x + d.1) (y + d.2) then some (Move.mk x y d.1 d.2) else none)
  else if cell = Cell.HOLE then
    move_directions.filterMap (fun d =>
      if is_in_board (x + d.1) (y + d.2) ∧ boardAt board (x + d.1) (y + d.2) = Cell.EMPTY
      then some (Move.mk x y d.1 d.2) else none)
  else []

/-- `get_legal_moves(board, player)`: row-major scan over the grid. -/
def get_legal_moves (board : List Cell) (player : Cell) : List Move :=
  (List.range 5).flatMap (fun y =>
    (List.range 5).flatMap (fun x =>
      cell_moves board player (Int.ofNat x) (Int.ofNat y)))

/-- The chain-push `while True` loop of `applied_move`, with explicit fuel
(the walk advances by `(dx, dy)` every iteration and leaves the grid after at
most a handful of steps, so the fuel below is never exhausted). -/
def applied_move_loop : Nat → List Cell → Int → Int → Int → Int → Cell → Option (List Cell)
  | 0, _, _, _, _, _, _ => none
  | fuel + 1, nb, cur_x, cur_y, dx, dy, prev_cell =>
    let new_x := cur_x + dx
    let new_y := cur_y + dy
    if is_in_board new_x new_y = false then
      py_set nb (xy_to_index cur_x cur_y) prev_cell
    else
      match py_get nb (xy_to_index new_x new_y) with
      | none => none
      | some Cell.HOLE => py_set nb (xy_to_index cur_x cur_y) prev_cell
      | some Cell.EMPTY =>
        match py_get nb (xy_to_index cur_x cur_y) with
        | none => none
        | some v =>
          match py_set nb (xy_to_index new_x new_y) v with
          | none => none
          | some nb₁ => py_set nb₁ (xy_to_index cur_x cur_y) prev_cell
      | some _ =>
        match py_get nb (xy_to_index cur_x cur_y) with
        | none => none
        | some tmp_cell =>
          match py_set nb (xy_to_index cur_x cur_y) prev_cell with
          | none => none
          | some nb₁ => applied_move_loop fuel nb₁ new_x new_y dx dy tmp_cell

/-- `applied_move(board, move)`: hole moves swap with the (assumed-empty)
destination; piece moves run the chain-push loop; a move whose origin is
empty returns the copied board unchanged.  `none` models a raised
IndexError. -/
def applied_move (board : List Cell) (move : Move) : Option (List Cell) :=
  let new_board := copy_board board
  match py_get new_board (xy_to_index move.x move.y) with
  | none => none
  | some Cell.HOLE =>
    match py_set new_board (xy_to_index move.x move.y) Cell.EMPTY with
    | none => none
    | some nb =>
      py_set nb (xy_to_index (move.x + move.dx) (move.y + move.dy)) Cell.HOLE
  | some Cell.EMPTY => some new_board
  | some _ => applied_move_loop 32 new_board move.x move.y move.dx move.dy Cell.EMPTY

/-- `sum(1 for cell in board if cell == target)`. -/
def count_cell : List Cell → Cell → Nat
  | [], _ => 0
  | c :: rest, target => (if c = target then 1 else 0) + count_cell rest target

/-- `is_winner(board, player)`: true iff the opponent has at most 3 pieces
left; raises (models as `none`) when `player` has no opponent. -/
def is_winner (board : List Cell) (player : Cell) : Option Bool :=
  (Cell.opponent player).map (fun opp => decide (count_cell board opp ≤ 3))

/-! ### Concrete boards used by the spec's worked examples -/

/-- Board with Player1 at (0,0), Player2 at (1,0), Player1 at (2,0), rest
empty (the push-chain example). -/
def pushChainBoard : List Cell :=
  [.Player1, .Player2, .Player1, .EMPTY, .EMPTY,
   .EMPTY, .EMPTY, .EMPTY, .EMPTY, .EMPTY,
   .EMPTY, .EMPTY, .EMPTY, .EMPTY, .EMPTY,
   .EMPTY, .EMPTY, .EMPTY, .EMPTY, .EMPTY,
   .EMPTY, .EMPTY, .EMPTY, .EMPTY, .EMPTY]

/-- The board after applying `Move(0,0,1,0)` to `pushChainBoard`. -/
def pushChainResult : List Cell :=
  [.EMPTY, .Player1, .Player2, .Player1, .EMPTY,
   .EMPTY, .EMPTY, .EMPTY, .EMPTY, .EMPTY,
   .EMPTY, .EMPTY, .EMPTY, .EMPTY, .EMPTY,
   .EMPTY, .EMPTY, .EMPTY, .EMPTY, .EMPTY,
   .EMPTY, .EMPTY, .EMPTY, .EMPTY, .EMPTY]

/-- Board with Player1 at (0,2), Player2 at (1,2), the hole at (2,2), rest
empty (the hole-absorption example). -/
def holeAbsorbBoard : List Cell :=
  [.EMPTY, .EMPTY, .EMPTY, .EMPTY, .EMPTY,
   .EMPTY, .EMPTY, .EMPTY, .EMPTY, .EMPTY,
   .Player1, .Player2, .HOLE, .EMPTY, .EMPTY,
   .EMPTY, .EMPTY, .EMPTY, .EMPTY, .EMPTY,
   .EMPTY, .EMPTY, .EMPTY, .EMPTY, .EMPTY]

/-- The board after applying `Move(0,2,1,0)` to `holeAbsorbBoard`. -/
def holeAbsorbResult : List Cell :=
  [.EMPTY, .EMPTY, .EMPTY, .EMPTY, .EMPTY,
   .EMPTY, .EMPTY, .EMPTY, .EMPTY, .EMPTY,
   .EMPTY, .Player1, .HOLE, .EMPTY, .EMPTY,
   .EMPTY, .EMPTY, .EMPTY, .EMPTY, .EMPTY,
   .EMPTY, .EMPTY, .EMPTY, .EMPTY, .EMPTY]

/-- Board with the hole at (2,2) and Player1 at (2,1), rest empty (the
hole-move legality example). -/
def holeTestBoard : List Cell :=
  [.EMPTY, .EMPTY, .EMPTY, .EMPTY, .EMPTY,
   .EMPTY, .EMPTY, .Player1, .EMPTY, .EMPTY,
   .EMPTY, .EMPTY, .HOLE, .EMPTY, .EMPTY,
   .EMPTY, .EMPTY, .EMPTY, .EMPTY, .EMPTY,
   .EMPTY, .EMPTY, .EMPTY, .EMPTY, .EMPTY]

/-! ### C1, C2: concrete move-application behaviour -/

/-- C1: on the board with Player1 at (0,0), Player2 at (1,0), Player1 at
(2,0) and every other cell empty, `applied_move` with `Move(0,0,1,0)`
returns the board with Empty, Player1, Player2, Player1 at x = 0..3 of
row 0: the contiguous line of pieces ahead of the mover shifts one cell. -/
theorem push_chain_shifts_line :
    applied_move pushChainBoard (Move.mk 0 0 1 0) = some pushChainResult ∧
    boardAt pushChainResult 0 0 = Cell.EMPTY ∧
    boardAt pushChainResult 1 0 = Cell.Player1 ∧
    boardAt pushChainResult 2 0 = Cell.Player2 ∧
    boardAt pushChainResult 3 0 = Cell.Player1 := by
  decide

/-- C2: on the board with Player1 at (0,2), Player2 at (1,2) and the hole at
(2,2), `applied_move` with `Move(0,2,1,0)` empties (0,2), puts Player1 at
(1,2), leaves the hole at (2,2), and no Player2 cell remains anywhere: a
piece pushed into the hole vanishes and the hole itself is not displaced. -/
theorem hole_absorbs_pushed_piece :
    applied_move holeAbsorbBoard (Move.mk 0 2 1 0) = some holeAbsorbResult ∧
    boardAt holeAbsorbResult 0 2 = Cell.EMPTY ∧
    boardAt holeAbsorbResult 1 2 = Cell.Player1 ∧
    boardAt holeAbsorbResult 2 2 = Cell.HOLE ∧
    count_cell holeAbsorbResult Cell.Player2 = 0 := by
  decide

/-! ### C3: hole-move legality -/

/-- C3: `get_legal_moves` emits a move whose origin holds the hole only when
the destination is in-bounds and currently empty; and on the board with the
hole at (2,2) and Player1 at (2,1), exactly the hole-moves with deltas
(-1,0), (1,0), (0,1) are generated, in that order, and (0,-1) is not. -/
theorem hole_moves_require_empty_destination :
    (∀ (board : List Cell) (player : Cell) (m : Move),
      (player = Cell.Player1 ∨ player = Cell.Player2) →
      m ∈ get_legal_moves board player →
      boardAt board m.x m.y = Cell.HOLE →
      is_in_board (m.x + m.dx) (m.y + m.dy) = true ∧
        boardAt board (m.x + m.dx) (m.y + m.dy) = Cell.EMPTY) ∧
    ((get_legal_moves holeTestBoard Cell.Player1).filter
        (fun m => boardAt holeTestBoard m.x m.y == Cell.HOLE)).map
      (fun m => (m.dx, m.dy)) = [(-1, 0), (1, 0), (0, 1)] := by
  constructor
  · intro board player m hp hm hhole
    simp only [get_legal_moves, List.mem_flatMap, List.mem_range] at hm
    obtain ⟨y, -, x, -, hm⟩ := hm
    simp only [cell_moves] at hm
    split at hm
    · -- the origin cell holds the player's piece: contradicts origin = HOLE
      rw [List.mem_filterMap] at hm
      obtain ⟨d, -, hf⟩ := hm
      split at hf
      · cases hf
        rename_i hcell _
        rw [hhole] at hcell
        rcases hp with hp | hp <;> simp [hp] at hcell
      · cases hf
    · split at hm
      · -- the origin cell holds the hole: the guard gives both conclusions
        rw [List.mem_filterMap] at hm
        obtain ⟨d, -, hf⟩ := hm
        split at hf
        · cases hf
          rename_i hcond
          exact ⟨hcond.1, hcond.2⟩
        · cases hf
      · cases hm
  · decide

/-- Witness for C3: instantiating the universal part at the hole-move
`Move(2,2,-1,0)` of the concrete example board. -/
theorem hole_moves_require_empty_destination_witness :
    is_in_board ((2 : Int) + (-1)) ((2 : Int) + 0) = true ∧
      boardAt holeTestBoard ((2 : Int) + (-1)) ((2 : Int) + 0) = Cell.EMPTY :=
  hole_moves_require_empty_destination.1 holeTestBoard Cell.Player1
    (Move.mk 2 2 (-1) 0) (Or.inl rfl) (by decide) (by decide)

/-! ### C4: win condition -/

/-- C4: for either player, `is_winner` returns true exactly when the
opponent's piece count is at most 3, and it is false for both players on the
initial board. -/
theorem is_winner_iff_opponent_at_most_three :
    (∀ board : List Cell,
      is_winner board Cell.Player1 = some (decide (count_cell board Cell.Player2 ≤ 3)) ∧
      is_winner board Cell.Player2 = some (decide (count_cell board Cell.Player1 ≤ 3))) ∧
    is_winner create_initial_board Cell.Player1 = some false ∧
    is_winner create_initial_board Cell.Player2 = some false := by
  refine ⟨fun board => ⟨rfl, rfl⟩, by decide, by decide⟩

/-! ### C5: pieces never increase -/

/-- Setting a slot below the length changes `getD` at that slot to the new
value. -/
theorem list_getD_set_self {α : Type} (c d : α) (l : List α) :
    ∀ j, j < l.length → (l.set j c).getD j d = c := by
  induction l with
  | nil => intro j h; simp at h
  | cons a t ih =>
    intro j h
    cases j with
    | zero => rfl
    | succ j => simpa using ih j (by simpa using h)

/-- Setting one slot leaves `getD` at any other slot unchanged. -/
theorem list_getD_set_ne {α : Type} (c d : α) (l : List α) :
    ∀ j j', j ≠ j' → (l.set j c).getD j' d = l.getD j' d := by
  induction l with
  | nil => intro j j' h; simp
  | cons a t ih =>
    intro j j' h
    cases j with
    | zero =>
      cases j' with
      | zero => exact absurd rfl h
      | succ j' => simp
    | succ j =>
      cases j' with
      | zero => simp
      | succ j' => simpa using ih j j' (by omega)

/-- Exact cell accounting for a single in-range write. -/
theorem count_cell_set (c t : Cell) (l : List Cell) :
    ∀ j, j < l.length →
      count_cell (l.set j c) t + (if l.getD j Cell.EMPTY = t then 1 else 0)
        = count_cell l t + (if c = t then 1 else 0) := by
  induction l with
  | nil => intro j h; simp at h
  | cons a rest ih =>
    intro j h
    cases j with
    | zero =>
      simp only [List.set, List.getD_cons_zero, count_cell]
      omega
    | succ j =>
      have hrec := ih j (by simpa using h)
      simp only [List.set, List.getD_cons_succ, count_cell]
      omega

/-- A successfully resolved Python index is below the length. -/
theorem pyIdx_lt {len : Nat} {i : Int} {j : Nat} (h : pyIdx len i = some j) :
    j < len := by
  unfold pyIdx at h
  split at h
  · split at h
    · rename_i h0 h1
      cases h
      omega
    · cases h
  · split at h
    · rename_i h0 h1
      cases h
      omega
    · cases h

/-- Successful Python writes are `List.set` at a resolved in-range slot. -/
theorem py_set_eq {b : List Cell} {i : Int} {c : Cell} {b' : List Cell}
    (h : py_set b i c = some b') :
    ∃ j, pyIdx b.length i = some j ∧ j < b.length ∧ b' = b.set j c := by
  unfold py_set at h
  cases hj : pyIdx b.length i with
  | none => rw [hj] at h; cases h
  | some j =>
    rw [hj] at h
    cases h
    exact ⟨j, rfl, pyIdx_lt hj, rfl⟩

/-- Successful Python reads are `getD` at a resolved in-range slot. -/
theorem py_get_eq {b : List Cell} {i : Int} {c : Cell}
    (h : py_get b i = some c) :
    ∃ j, pyIdx b.length i = some j ∧ j < b.length ∧ b.getD j Cell.EMPTY = c := by
  unfold py_get at h
  cases hj : pyIdx b.length i with
  | none => rw [hj] at h; cases h
  | some j =>
    rw [hj] at h
    cases h
    exact ⟨j, rfl, pyIdx_lt hj, rfl⟩

/-- Exact cell accounting for a Python write at an index whose current value
is known from a successful read. -/
theorem count_cell_py_set (t : Cell) {b : List Cell} {i : Int} {c v : Cell}
    {b' : List Cell} (hget : py_get b i = some v) (hset : py_set b i c = some b') :
    count_cell b' t + (if v = t then 1 else 0)
      = count_cell b t + (if c = t then 1 else 0) := by
  unfold py_get at hget
  unfold py_set at hset
  cases hj : pyIdx b.length i with
  | none => rw [hj] at hget; cases hget
  | some j =>
    rw [hj] at hget hset
    cases hget
    cases hset
    exact count_cell_set c t b j (pyIdx_lt hj)

/-- A Python write adds at most one cell of any kind. -/
theorem count_cell_py_set_le (t : Cell) {b : List Cell} {i : Int} {c : Cell}
    {b' : List Cell} (hset : py_set b i c = some b') :
    count_cell b' t ≤ count_cell b t + (if c = t then 1 else 0) := by
  obtain ⟨j, hj, hlt, rfl⟩ := py_set_eq hset
  have := count_cell_set c t b j hlt
  omega

/-- Writing the value `v` anywhere preserves a read that already returned
`v`. -/
theorem py_get_after_set_same_val {b b' : List Cell} {i i' : Int} {v : Cell}
    (hget : py_get b i' = some v) (hset : py_set b i v = some b') :
    py_get b' i' = some v := by
  obtain ⟨j, hj, hlt, rfl⟩ := py_set_eq hset
  obtain ⟨j', hj', hlt', hgd⟩ := py_get_eq hget
  unfold py_get
  have hlen : (b.set j v).length = b.length := by simp
  rw [hlen, hj']
  simp only [Option.map_some', Option.some.injEq]
  by_cases hc : j = j'
  · subst hc
    exact list_getD_set_self v Cell.EMPTY b j hlt
  · rw [list_getD_set_ne v Cell.EMPTY b j j' hc]
    exact hgd

/-- Through the chain-push loop, the count of any non-empty cell kind grows
by at most the carried cell: pieces are relocated or dropped, never
duplicated. -/
theorem applied_move_loop_count (t : Cell) (ht : t ≠ Cell.EMPTY) :
    ∀ (fuel : Nat) (nb : List Cell) (cx cy dx dy : Int) (prev : Cell)
      (out : List Cell),
      applied_move_loop fuel nb cx cy dx dy prev = some out →
      count_cell out t ≤ count_cell nb t + (if prev = t then 1 else 0) := by
  intro fuel
  induction fuel with
  | zero =>
    intro nb cx cy dx dy prev out h
    cases h
  | succ fuel ih =>
    intro nb cx cy dx dy prev out h
    simp only [applied_move_loop] at h
    split at h
    · -- the walk left the board: the current cell receives the carried cell
      exact count_cell_py_set_le t h
    · split at h
      · cases h
      · -- the next cell is the hole: same termination write
        exact count_cell_py_set_le t h
      · -- the next cell is empty: the mover advances, the origin gets the
        -- carried cell; the totals balance exactly
        rename_i hx hg
        split at h
        · cases h
        · rename_i hx1 v hgc
          split at h
          · cases h
          · rename_i hx0 nb₁ hs1
            have h1 := count_cell_py_set t hg hs1
            have hgc₁ := py_get_after_set_same_val hgc hs1
            have h2 := count_cell_py_set t hgc₁ h
            have hne : (if Cell.EMPTY = t then 1 else 0) = 0 :=
              if_neg (fun hh => ht hh.symm)
            omega
      · -- the next cell is a piece: it becomes the carried cell and the
        -- walk continues one step further
        split at h
        · cases h
        · rename_i hx1 tmp hgc
          split at h
          · cases h
          · rename_i hx0 nb₁ hs1
            have h1 := count_cell_py_set t hgc hs1
            have h2 := ih _ _ _ _ _ _ _ h
            omega

/-- C5: applying any move never increases the total number of Player1 and
Player2 cells on the board (whenever `applied_move` returns a board at all),
so the piece count is non-increasing across any sequence of applied moves. -/
theorem applied_move_piece_count_monotone :
    ∀ (board : List Cell) (move : Move) (out : List Cell),
      applied_move board move = some out →
      count_cell out Cell.Player1 + count_cell out Cell.Player2
        ≤ count_cell board Cell.Player1 + count_cell board Cell.Player2 := by
  intro board move out h
  have hmain : ∀ t : Cell, t ≠ Cell.EMPTY → t ≠ Cell.HOLE →
      count_cell out t ≤ count_cell board t := by
    intro t ht he
    have e1 : (if Cell.HOLE = t then 1 else 0) = 0 :=
      if_neg (fun hh => he hh.symm)
    have e2 : (if Cell.EMPTY = t then 1 else 0) = 0 :=
      if_neg (fun hh => ht hh.symm)
    simp only [applied_move, copy_board] at h
    split at h
    · cases h
    · -- hole move: the origin is emptied, the destination becomes the hole
      split at h
      · cases h
      · rename_i nb hs1
        have h1 := count_cell_py_set_le t h
        have h2 := count_cell_py_set_le t hs1
        omega
    · -- empty origin: the copied board is returned unchanged
      cases h
      exact Nat.le_refl _
    · -- piece move: the chain-push loop with an empty carried cell
      have h1 := applied_move_loop_count t ht 32 board _ _ _ _ _ _ h
      omega
  have h1 := hmain Cell.Player1 (by decide) (by decide)
  have h2 := hmain Cell.Player2 (by decide) (by decide)
  omega

/-- Witness for C5 at the push-chain example board. -/
theorem applied_move_piece_count_monotone_witness :
    count_cell pushChainResult Cell.Player1 + count_cell pushChainResult Cell.Player2
      ≤ count_cell pushChainBoard Cell.Player1 + count_cell pushChainBoard Cell.Player2 :=
  applied_move_piece_count_monotone pushChainBoard (Move.mk 0 0 1 0)
    pushChainResult (by decide)

/-! ### Search agents.

The agents compare and negate Python floats whose values here are always
integers or the two infinities, modelled exactly by `Score`.  `random.shuffle`
is modelled by an arbitrary reordering function `sh`, and `random.choice` by
an arbitrary selection function; Python exceptions propagate as `none` /
`Except.error`. -/

/-- Extended scores: `float("-inf")`, finite integer-valued floats, and
`float("inf")`. -/
inductive Score where
  | negInf
  | fin (n : Int)
  | posInf
deriving DecidableEq, Repr

/-- Negation of a score (`-score`). -/
def Score.neg : Score → Score
  | Score.negInf => Score.posInf
  | Score.fin n => Score.fin (-n)
  | Score.posInf => Score.negInf

/-- Strict comparison of scores (`<`). -/
def Score.lt : Score → Score → Bool
  | Score.negInf, Score.negInf => false
  | Score.negInf, _ => true
  | Score.fin _, Score.negInf => false
  | Score.fin a, Score.fin b => decide (a < b)
  | Score.fin _, Score.posInf => true
  | Score.posInf, _ => false

/-- Non-strict comparison of scores (`<=`). -/
def Score.le (a b : Score) : Bool := !(Score.lt b a)

/-- Python `max(a, b)` on scores. -/
def Score.max (a b : Score) : Score := if Score.lt a b then b else a

/-- Python `min(a, b)` on scores. -/
def Score.min (a b : Score) : Score := if Score.lt b a then b else a

/-- `WIN_SCORE = 10000` (kyawan.py). -/
def WIN_SCORE : Int := 10000

/-- `LOSE_SCORE = -20000` (kyawan.py). -/
def LOSE_SCORE : Int := -20000

/-- Modelled from the spec: `is_same_board` is imported by the agents from
`ostle.core.board`, but that function's body is absent from the module's
source here.  Per the spec's repetition-avoidance rule, a candidate move is
skipped when "its resulting board is identical to `prev_board`", i.e. the two
boards are equal cell for cell. -/
def is_same_board (a b : List Cell) : Bool := a == b

/-- The repetition test as invoked by KyawanAgent: with no previous board
(Python `None`, as the engine passes on the first ply) comparing a list with
`None` is false. -/
def kyawan_same_as_prev (next_board : List Cell) (prev_board : Option (List Cell)) : Bool :=
  match prev_board with
  | some pb => is_same_board next_board pb
  | none => false

/-- `KyawanAgent.evaluate`: win/lose detection only, preferring faster wins
and slower losses. -/
def kyawan_evaluate (board : List Cell) (player : Cell) (depth : Nat) : Option Score :=
  match is_winner board player with
  | none => none
  | some true => some (Score.fin (WIN_SCORE + depth))
  | some false =>
    match Cell.opponent player with
    | none => none
    | some opp =>
      match is_winner board opp with
      | none => none
      | some true => some (Score.fin (LOSE_SCORE - depth))
      | some false => some (Score.fin 0)

/-- The `for move in moves` loop of `KyawanAgent.negamax`: tracks the best
score and move, skips candidates whose result equals the previous board,
raises alpha, and beta-cuts.  `child` is the recursive search of the
opponent's reply one depth lower. -/
def kyawan_negamax_loop
    (child : List Cell → Score → Score → Option (Score × Option Move))
    (board : List Cell) (prev_board : Option (List Cell)) :
    List Move → Score → Option Move → Score → Score → Option (Score × Option Move)
  | [], best_score, best_move, _, _ => some (best_score, best_move)
  | move :: rest, best_score, best_move, alpha, beta =>
    match applied_move board move with
    | none => none
    | some next_board =>
      if kyawan_same_as_prev next_board prev_board then
        kyawan_negamax_loop child board prev_board rest best_score best_move alpha beta
      else
        match child next_board (Score.neg beta) (Score.neg alpha) with
        | none => none
        | some (child_score, _) =>
          let score := Score.neg child_score
          let best_score' := if Score.lt best_score score then score else best_score
          let best_move' := if Score.lt best_score score then some move else best_move
          let alpha' := Score.max alpha score
          if Score.le beta alpha' then some (best_score', best_move')
          else kyawan_negamax_loop child board prev_board rest best_score' best_move' alpha' beta

/-- `KyawanAgent.negamax`: at depth 0 evaluate; otherwise fold the loop over
the (shuffled) legal moves with the current board passed down as the child's
previous board. -/
def kyawan_negamax (sh : List Move → List Move) :
    Nat → Cell → List Cell → Option (List Cell) → Score → Score →
      Option (Score × Option Move)
  | 0, player, board, _, _, _ =>
    (kyawan_evaluate board player 0).map (fun s => (s, none))
  | depth + 1, player, board, prev_board, alpha, beta =>
    match Cell.opponent player with
    | none => none
    | some next_player =>
      kyawan_negamax_loop
        (fun nb a b => kyawan_negamax sh depth next_player nb (some board) a b)
        board prev_board (sh (get_legal_moves board player)) Score.negInf none alpha beta

/-- `KyawanAgent.calc_best_move`: a fixed depth-5 negamax; Python returns the
move component, which is `None` when no move was recorded. -/
def kyawan_calc_best_move (sh : List Move → List Move) (board : List Cell)
    (prev_board : Option (List Cell)) (player : Cell) (time_remaining : Int) :
    Except String (Option Move) :=
  match kyawan_negamax sh 5 player board prev_board Score.negInf Score.posInf with
  | none => Except.error "exception"
  | some r => Except.ok r.2

/-- Board with a single Player1 piece at (0,0), rest empty. -/
def singlePieceBoard : List Cell :=
  [.Player1, .EMPTY, .EMPTY, .EMPTY, .EMPTY,
   .EMPTY, .EMPTY, .EMPTY, .EMPTY, .EMPTY,
   .EMPTY, .EMPTY, .EMPTY, .EMPTY, .EMPTY,
   .EMPTY, .EMPTY, .EMPTY, .EMPTY, .EMPTY,
   .EMPTY, .EMPTY, .EMPTY, .EMPTY, .EMPTY]

/-- A board with no pieces and no hole: no player has any legal move on it. -/
def emptyTestBoard : List Cell := List.replicate 25 Cell.EMPTY

/-- Any move the negamax loop records as best was actually examined: its
application succeeded and its resulting board differs from the previous
board (otherwise the `continue` skips it before it can be recorded). -/
theorem kyawan_negamax_loop_selected
    (child : List Cell → Score → Score → Option (Score × Option Move))
    (board : List Cell) (prev_board : Option (List Cell)) :
    ∀ (moves : List Move) (bs : Score) (bm : Option Move) (alpha beta s : Score)
      (m : Move),
      (∀ m₀, bm = some m₀ → ∃ nb, applied_move board m₀ = some nb ∧
        kyawan_same_as_prev nb prev_board = false) →
      kyawan_negamax_loop child board prev_board moves bs bm alpha beta
        = some (s, some m) →
      ∃ nb, applied_move board m = some nb ∧
        kyawan_same_as_prev nb prev_board = false := by
  intro moves
  induction moves with
  | nil =>
    intro bs bm alpha beta s m hinv h
    simp only [kyawan_negamax_loop, Option.some.injEq, Prod.mk.injEq] at h
    exact hinv m h.2
  | cons move rest ih =>
    intro bs bm alpha beta s m hinv h
    simp only [kyawan_negamax_loop] at h
    split at h
    · cases h
    · rename_i hx nb happ
      split at h
      · exact ih _ _ _ _ _ _ hinv h
      · rename_i hsame
        rw [Bool.not_eq_true] at hsame
        split at h
        · cases h
        · rename_i hx1 child_score cm hchild
          have hinv' : ∀ m₀,
              (if Score.lt bs (Score.neg child_score) then some move else bm) = some m₀ →
              ∃ nb₀, applied_move board m₀ = some nb₀ ∧
                kyawan_same_as_prev nb₀ prev_board = false := by
            intro m₀ hm₀
            split at hm₀
            · cases hm₀
              exact ⟨nb, happ, hsame⟩
            · exact hinv m₀ hm₀
          split at h
          · simp only [Option.some.injEq, Prod.mk.injEq] at h
            exact hinv' m h.2
          · exact ih _ _ _ _ _ _ hinv' h

/-- C8: KyawanAgent's negamax never returns, as its chosen move, a candidate
whose resulting board is identical to the previous board: such candidates
are skipped.  The comparison looks exactly one ply back (the recursion
passes the current board down as the child's previous board, see
`kyawan_negamax`). -/
theorem negamax_never_selects_repetition :
    ∀ (sh : List Move → List Move) (depth : Nat) (player : Cell)
      (board : List Cell) (prev_board : Option (List Cell)) (alpha beta s : Score)
      (m : Move),
      kyawan_negamax sh depth player board prev_board alpha beta = some (s, some m) →
      ∃ nb, applied_move board m = some nb ∧
        kyawan_same_as_prev nb prev_board = false := by
  intro sh depth player board prev_board alpha beta s m h
  cases depth with
  | zero =>
    simp only [kyawan_negamax] at h
    cases he : kyawan_evaluate board player 0 with
    | none => rw [he] at h; cases h
    | some v =>
      rw [he] at h
      simp at h
  | succ depth =>
    simp only [kyawan_negamax] at h
    split at h
    · cases h
    · exact kyawan_negamax_loop_selected _ _ _ _ _ _ _ _ _ _
        (fun m₀ hm₀ => absurd hm₀ (by simp)) h

/-- Witness for C8: a depth-1 search from a board with one Player1 piece
selects the move right, whose result indeed differs from the (absent)
previous board. -/
theorem negamax_never_selects_repetition_witness :
    ∃ nb, applied_move singlePieceBoard (Move.mk 0 0 1 0) = some nb ∧
      kyawan_same_as_prev nb none = false :=
  negamax_never_selects_repetition id 1 Cell.Player1 singlePieceBoard none
    Score.negInf Score.posInf (Score.fin (-10000)) (Move.mk 0 0 1 0) (by decide)

/-- C6 counterexample: on a board where Player1 has no legal moves,
KyawanAgent's `calc_best_move` does not fail: it returns the value `None`
(the move component of the empty search), so not every search agent fails
with a NoLegalMoves condition. -/
theorem kyawan_returns_none_without_legal_moves :
    get_legal_moves emptyTestBoard Cell.Player1 = [] ∧
    kyawan_calc_best_move id emptyTestBoard none Cell.Player1 0 = Except.ok none :=
  ⟨by decide, rfl⟩

/-- `RandomAgent.calc_best_move`: raises `ValueError("No legal moves
available")` when the player cannot move, otherwise (after a sleep,
irrelevant here) returns `random.choice(legal_moves)`, modelled by an
arbitrary selection function. -/
def random_calc_best_move (choice : List Move → Move) (board : List Cell)
    (prev_board : Option (List Cell)) (player : Cell) (time_remaining : Int) :
    Except String Move :=
  let legal_moves := get_legal_moves board player
  if legal_moves = [] then Except.error "No legal moves available"
  else Except.ok (choice legal_moves)

/-- `InoueAgent._evaluate`: win/lose scores, then material (x100) plus
mobility (x3); all values are integer-valued floats. -/
def inoue_evaluate (board : List Cell) (player : Cell) : Option Score :=
  match is_winner board player with
  | none => none
  | some true => some (Score.fin 10000)
  | some false =>
    match Cell.opponent player with
    | none => none
    | some opp =>
      match is_winner board opp with
      | none => none
      | some true => some (Score.fin (-10000))
      | some false =>
        let material := ((count_cell board player : Int) - (count_cell board opp : Int)) * 100
        let mobility := (((get_legal_moves board player).length : Int)
          - ((get_legal_moves board opp).length : Int)) * 3
        some (Score.fin (material + mobility))

/-- The maximizing move loop of `InoueAgent._alphabeta`.  The wall-clock
time test `_is_time_over` is abstracted as the oracle `timeOver` applied to a
running call counter (threaded through all results); `child` is the
recursive search one depth lower. -/
def inoue_ab_max_loop (timeOver : Nat → Bool)
    (child : List Cell → Cell → Score → Score → Nat → Option (Score × Nat))
    (turn : Cell) (board : List Cell) :
    List Move → Score → Score → Score → Nat → Option (Score × Nat)
  | [], value, _, _, k => some (value, k)
  | move :: rest, value, alpha, beta, k =>
    if timeOver k then some (value, k + 1)
    else
      match applied_move board move with
      | none => none
      | some next_board =>
        match Cell.opponent turn with
        | none => none
        | some next_turn =>
          match child next_board next_turn alpha beta (k + 1) with
          | none => none
          | some (v, k') =>
            let value' := Score.max value v
            let alpha' := Score.max alpha value'
            if Score.le beta alpha' then some (value', k')
            else inoue_ab_max_loop timeOver child turn board rest value' alpha' beta k'

/-- The minimizing move loop of `InoueAgent._alphabeta`. -/
def inoue_ab_min_loop (timeOver : Nat → Bool)
    (child : List Cell → Cell → Score → Score → Nat → Option (Score × Nat))
    (turn : Cell) (board : List Cell) :
    List Move → Score → Score → Score → Nat → Option (Score × Nat)
  | [], value, _, _, k => some (value, k)
  | move :: rest, value, alpha, beta, k =>
    if timeOver k then some (value, k + 1)
    else
      match applied_move board move with
      | none => none
      | some next_board =>
        match Cell.opponent turn with
        | none => none
        | some next_turn =>
          match child next_board next_turn alpha beta (k + 1) with
          | none => none
          | some (v, k') =>
            let value' := Score.min value v
            let beta' := Score.min beta value'
            if Score.le beta' alpha then some (value', k')
            else inoue_ab_min_loop timeOver child turn board rest value' alpha beta' k'

/-- `InoueAgent._alphabeta`: time check, terminal tests (depth exhausted or
either side already winning, both of which evaluate the leaf), then the
maximizing or minimizing loop depending on whose turn it is relative to the
root player.  At depth 0 both the timeout path and the terminal path return
the evaluation. -/
def inoue_alphabeta (timeOver : Nat → Bool) :
    Nat → List Cell → Cell → Score → Score → Cell → Nat → Option (Score × Nat)
  | 0, board, _, _, _, root_player, k =>
    (inoue_evaluate board root_player).map (fun s => (s, k + 1))
  | depth + 1, board, turn, alpha, beta, root_player, k =>
    if timeOver k then (inoue_evaluate board root_player).map (fun s => (s, k + 1))
    else
      match is_winner board root_player, Cell.opponent root_player with
      | some w1, some root_opp =>
        match is_winner board root_opp with
        | some w2 =>
          if w1 || w2 then (inoue_evaluate board root_player).map (fun s => (s, k + 1))
          else
            let moves := get_legal_moves board turn
            if moves = [] then (inoue_evaluate board root_player).map (fun s => (s, k + 1))
            else if turn = root_player then
              inoue_ab_max_loop timeOver
                (fun nb t a b k' => inoue_alphabeta timeOver depth nb t a b root_player k')
                turn board moves Score.negInf alpha beta (k + 1)
            else
              inoue_ab_min_loop timeOver
                (fun nb t a b k' => inoue_alphabeta timeOver depth nb t a b root_player k')
                turn board moves Score.posInf alpha beta (k + 1)
        | none => none
      | _, _ => none

/-- The move loop of `InoueAgent._search_root`: tracks the best score and
move over the legal moves at the requested depth, raising alpha, with no
beta cut at the root. -/
def inoue_search_root_loop (timeOver : Nat → Bool)
    (child : List Cell → Cell → Score → Score → Nat → Option (Score × Nat))
    (player : Cell) (board : List Cell) :
    List Move → Score → Option Move → Score → Score → Nat →
      Option (Score × Option Move × Nat)
  | [], best_score, best_move, _, _, k => some (best_score, best_move, k)
  | move :: rest, best_score, best_move, alpha, beta, k =>
    if timeOver k then some (best_score, best_move, k + 1)
    else
      match applied_move board move with
      | none => none
      | some next_board =>
        match Cell.opponent player with
        | none => none
        | some opp =>
          match child next_board opp alpha beta (k + 1) with
          | none => none
          | some (score, k') =>
            let best_score' := if Score.lt best_score score then score else best_score
            let best_move' := if Score.lt best_score score then some move else best_move
            let alpha' := Score.max alpha best_score'
            inoue_search_root_loop timeOver child player board rest best_score' best_move' alpha' beta k'

/-- `InoueAgent._search_root` at a fixed depth. -/
def inoue_search_root (timeOver : Nat → Bool) (board : List Cell) (player : Cell)
    (depth : Nat) (k : Nat) : Option (Score × Option Move × Nat) :=
  inoue_search_root_loop timeOver
    (fun nb t a b k' => inoue_alphabeta timeOver (depth - 1) nb t a b player k')
    player board (get_legal_moves board player) Score.negInf none
    Score.negInf Score.posInf k

/-- The iterative-deepening loop of `InoueAgent.calc_best_move` over depths
1..max_depth, keeping the last depth's move when one was found. -/
def inoue_deepening_loop (timeOver : Nat → Bool) (board : List Cell) (player : Cell) :
    List Nat → Move → Nat → Option Move
  | [], best_move, _ => some best_move
  | depth :: rest, best_move, k =>
    if timeOver k then some best_move
    else
      match inoue_search_root timeOver board player depth (k + 1) with
      | none => none
      | some (_, move, k') =>
        match move with
        | some m => inoue_deepening_loop timeOver board player rest m k'
        | none => inoue_deepening_loop timeOver board player rest best_move k'

/-- `InoueAgent.calc_best_move` (SearchConfig: max_depth = 4): raises
`ValueError("No legal moves available")` when there is no legal move;
otherwise iterative deepening over depths 1..4, starting from the first
legal move.  The wall-clock budget (`time_remaining`, `time_buffer`) is
abstracted into the time-over oracle `timeOver`. -/
def inoue_calc_best_move (timeOver : Nat → Bool) (board : List Cell)
    (prev_board : Option (List Cell)) (player : Cell) : Except String Move :=
  match get_legal_moves board player with
  | [] => Except.error "No legal moves available"
  | first :: _ =>
    match inoue_deepening_loop timeOver board player [1, 2, 3, 4] first 0 with
    | none => Except.error "exception"
    | some best => Except.ok best

/-- C6 (amended): when the player has no legal moves, InoueAgent and
RandomAgent fail with the "No legal moves available" error, but KyawanAgent
returns the value `None` instead of failing. -/
theorem no_legal_moves_agent_behavior :
    ∀ (board : List Cell) (prev : Option (List Cell)) (player : Cell)
      (sh : List Move → List Move) (choice : List Move → Move) (timeOver : Nat → Bool)
      (t : Int),
      get_legal_moves board player = [] →
      (player = Cell.Player1 ∨ player = Cell.Player2) →
      (∀ l, (sh l).Perm l) →
      inoue_calc_best_move timeOver board prev player
          = Except.error "No legal moves available" ∧
        random_calc_best_move choice board prev player t
          = Except.error "No legal moves available" ∧
        kyawan_calc_best_move sh board prev player t = Except.ok none := by
  intro board prev player sh choice timeOver t hempty hp hsh
  have hshempty : sh (get_legal_moves board player) = [] := by
    rw [hempty]
    exact (hsh []).eq_nil
  refine ⟨?_, ?_, ?_⟩
  · simp only [inoue_calc_best_move, hempty]
  · simp only [random_calc_best_move, hempty, if_pos]
  · rcases hp with hp | hp <;> subst hp <;>
      simp [kyawan_calc_best_move, kyawan_negamax, Cell.opponent, hshempty,
        kyawan_negamax_loop]

/-- Witness for the amended C6 on the board with no pieces and no hole. -/
theorem no_legal_moves_agent_behavior_witness :
    inoue_calc_best_move (fun _ => false) emptyTestBoard none Cell.Player1
        = Except.error "No legal moves available" ∧
      random_calc_best_move (fun l => l.headD (Move.mk 0 0 0 0)) emptyTestBoard
          none Cell.Player1 0
        = Except.error "No legal moves available" ∧
      kyawan_calc_best_move id emptyTestBoard none Cell.Player1 0
        = Except.ok none :=
  no_legal_moves_agent_behavior emptyTestBoard none Cell.Player1 id
    (fun l => l.headD (Move.mk 0 0 0 0)) (fun _ => false) 0 (by decide)
    (Or.inl rfl) (fun l => List.Perm.refl l)

/-! ### C9: the match driver's win check (AsyncEngine.update) -/

/-- The move-application step of `AsyncEngine.update` (state THINKING, a
move received): the board advances to `applied_move(board, move)`; then the
engine tests only `is_winner(board, turn)` — the mover — and finishes with
the mover as winner if it holds, otherwise swaps turns with no winner
declared.  Any exception while applying (an illegal move) finishes with the
opponent as winner and leaves the board unchanged. -/
def engine_apply_move (board : List Cell) (turn : Cell) (move : Move) :
    Option (List Cell × Option Cell) :=
  match applied_move board move with
  | some next_board =>
    match is_winner next_board turn with
    | none => (Cell.opponent turn).map (fun o => (next_board, some o))
    | some true => some (next_board, some turn)
    | some false => some (next_board, none)
  | none => (Cell.opponent turn).map (fun o => (board, some o))

/-- Board on which Player1 (to move, 4 pieces) can push its own piece at
(1,2) into the hole, leaving itself with 3 pieces while Player2 keeps 4. -/
def engineNoCheckBoard : List Cell :=
  [.Player1, .Player1, .EMPTY, .Player1, .EMPTY,
   .EMPTY, .EMPTY, .EMPTY, .EMPTY, .EMPTY,
   .EMPTY, .Player1, .HOLE, .EMPTY, .EMPTY,
   .EMPTY, .EMPTY, .EMPTY, .EMPTY, .EMPTY,
   .Player2, .Player2, .Player2, .Player2, .EMPTY]

/-- `engineNoCheckBoard` after `Move(1,2,1,0)`: the moving piece fell into
the hole. -/
def engineNoCheckAfter : List Cell :=
  [.Player1, .Player1, .EMPTY, .Player1, .EMPTY,
   .EMPTY, .EMPTY, .EMPTY, .EMPTY, .EMPTY,
   .EMPTY, .EMPTY, .HOLE, .EMPTY, .EMPTY,
   .EMPTY, .EMPTY, .EMPTY, .EMPTY, .EMPTY,
   .Player2, .Player2, .Player2, .Player2, .EMPTY]

/-- C9 counterexample: after Player1's move the opponent (Player2) satisfies
the win condition, yet the driver declares no winner — so the driver does
not check the opponent's win condition after checking the mover's. -/
theorem engine_skips_opponent_win_check :
    engine_apply_move engineNoCheckBoard Cell.Player1 (Move.mk 1 2 1 0)
        = some (engineNoCheckAfter, none) ∧
      is_winner engineNoCheckAfter Cell.Player2 = some true := by
  decide

/-- C9 (amended): after applying a returned move the driver checks only the
mover's win condition: the mover is declared winner when it holds (hence in
particular when both players satisfy the win condition simultaneously), and
no winner is declared when it fails, even if the opponent's condition
holds. -/
theorem engine_checks_only_mover :
    ∀ (board : List Cell) (turn : Cell) (move : Move) (next_board : List Cell),
      applied_move board move = some next_board →
      ((is_winner next_board turn = some true →
          engine_apply_move board turn move = some (next_board, some turn)) ∧
        (is_winner next_board turn = some false →
          engine_apply_move board turn move = some (next_board, none))) := by
  intro board turn move next_board happ
  unfold engine_apply_move
  rw [happ]
  constructor
  · intro hw
    simp [hw]
  · intro hw
    simp [hw]

/-- Board where Player2 already has 3 pieces and Player1 (to move, 4 pieces)
pushes its own piece at (1,2) into the hole, making both win conditions hold
at once. -/
def engineBothWinBoard : List Cell :=
  [.Player1, .Player1, .EMPTY, .Player1, .EMPTY,
   .EMPTY, .EMPTY, .EMPTY, .EMPTY, .EMPTY,
   .EMPTY, .Player1, .HOLE, .EMPTY, .EMPTY,
   .EMPTY, .EMPTY, .EMPTY, .EMPTY, .EMPTY,
   .Player2, .Player2, .Player2, .EMPTY, .EMPTY]

/-- `engineBothWinBoard` after `Move(1,2,1,0)`. -/
def engineBothWinAfter : List Cell :=
  [.Player1, .Player1, .EMPTY, .Player1, .EMPTY,
   .EMPTY, .EMPTY, .EMPTY, .EMPTY, .EMPTY,
   .EMPTY, .EMPTY, .HOLE, .EMPTY, .EMPTY,
   .EMPTY, .EMPTY, .EMPTY, .EMPTY, .EMPTY,
   .Player2, .Player2, .Player2, .EMPTY, .EMPTY]

/-- Witness for the amended C9: when one move leaves both players satisfying
the win condition, the mover (Player1) is declared the winner. -/
theorem engine_checks_only_mover_witness :
    engine_apply_move engineBothWinBoard Cell.Player1 (Move.mk 1 2 1 0)
        = some (engineBothWinAfter, some Cell.Player1) ∧
      is_winner engineBothWinAfter Cell.Player1 = some true ∧
      is_winner engineBothWinAfter Cell.Player2 = some true :=
  ⟨(engine_checks_only_mover engineBothWinBoard Cell.Player1 (Move.mk 1 2 1 0)
      engineBothWinAfter (by decide)).1 (by decide), by decide, by decide⟩

/-! ### C10: `applied_move` does not mutate its input -/

/-- A fragment of the Python heap: the list objects alive around a call to
`applied_move`, addressed by reference (their index). -/
abbrev Heap := List (List Cell)

/-- Dereference a list object. -/
def heap_lookup (h : Heap) (r : Nat) : List Cell := h.getD r []

/-- Allocate a fresh list object holding `v`, returning its reference. -/
def heap_alloc (h : Heap) (v : List Cell) : Heap × Nat := (h ++ [v], h.length)

/-- `applied_move` at the heap level.  `new_board = board[:]` allocates a
fresh list object with the input's contents; every later read and write of
the function targets that fresh object only (the source never touches
`board` again after the copy), so the net heap effect is to store the pure
`applied_move` result in the fresh slot.  `none` models a raised
IndexError, which discards the new object. -/
def applied_move_heap (h : Heap) (r : Nat) (m : Move) : Option (Heap × Nat) :=
  let alloc := heap_alloc h (heap_lookup h r)
  match applied_move (heap_lookup h r) m with
  | none => none
  | some nb => some (alloc.1.set alloc.2 nb, alloc.2)

/-- `getD` below an appended tail reads the original list. -/
theorem list_getD_append_left {α : Type} (d : α) (l t : List α) :
    ∀ j, j < l.length → (l ++ t).getD j d = l.getD j d := by
  induction l with
  | nil => intro j h; simp at h
  | cons a rest ih =>
    intro j h
    cases j with
    | zero => rfl
    | succ j => simpa using ih j (by simpa using h)

/-- C10: `applied_move` never mutates its input board object: the returned
board is a freshly allocated object distinct from the input reference, the
input reference still holds its pre-call contents, and the fresh object
holds the pure `applied_move` result. -/
theorem applied_move_heap_preserves_input :
    ∀ (h : Heap) (r : Nat) (m : Move) (out : Heap × Nat),
      r < h.length →
      applied_move_heap h r m = some out →
      out.2 ≠ r ∧ heap_lookup out.1 r = heap_lookup h r ∧
        applied_move (heap_lookup h r) m = some (heap_lookup out.1 out.2) := by
  intro h r m out hr happ
  simp only [applied_move_heap, heap_alloc, heap_lookup] at happ
  split at happ
  · cases happ
  · rename_i nb heq
    cases happ
    have hne : h.length ≠ r := by omega
    refine ⟨hne, ?_, ?_⟩
    · simp only [heap_lookup]
      rw [list_getD_set_ne nb [] (h ++ [h.getD r []]) h.length r hne]
      exact list_getD_append_left [] h [h.getD r []] r hr
    · simp only [heap_lookup]
      rw [list_getD_set_self nb [] (h ++ [h.getD r []]) h.length (by simp)]
      exact heq

/-- Witness for C10 on a one-object heap holding the push-chain board. -/
theorem applied_move_heap_preserves_input_witness :
    (1 : Nat) ≠ 0 ∧
      heap_lookup [pushChainBoard, pushChainResult] 0 = heap_lookup [pushChainBoard] 0 ∧
      applied_move (heap_lookup [pushChainBoard] 0) (Move.mk 0 0 1 0)
        = some (heap_lookup [pushChainBoard, pushChainResult] 1) :=
  applied_move_heap_preserves_input [pushChainBoard] 0 (Move.mk 0 0 1 0)
    ([pushChainBoard, pushChainResult], 1) (by decide) (by decide)
